import Mathlib

/-!
Verification of the SM2 signature core (`src/sm/sm2/sm2.go`) against its
specification.  The Go file implements key generation (`GenerateKey`),
nonce generation (`randFieldElement`, `generateRandK`), signing (`Sign`),
verification (`Verify`) and the ASN.1 signature envelope used by
`PrivateKey.Sign` / `PublicKey.Verify`.  The curve implementation
(`P256Sm2`, an `elliptic.Curve`) is not part of the sources, so the
curve-geometry layer below is modelled from the specification.
-/

set_option maxRecDepth 1000000

namespace SM2

/-- Modelled from the spec: the curve domain parameters of the fixed
standardized 256-bit curve used by `P256Sm2()` (whose implementation is
not in the sources): prime modulus `p`. -/
def pMod : Nat := 115792089210356248756420345214020892766250353991924191454421193933289684991999

/-- Modelled from the spec: curve coefficient `a` of `y^2 = x^3 + a x + b`. -/
def aCoef : Nat := 115792089210356248756420345214020892766250353991924191454421193933289684991996

/-- Modelled from the spec: curve coefficient `b`. -/
def bCoef : Nat := 18505919022281880113072981827955639221458448578012075254857346196103069175443

/-- Modelled from the spec: the group order `n` (`Params().N`). -/
def nOrd : Nat := 115792089210356248756420345214020892766061623724957744567843809356293439045923

/-- Modelled from the spec: base point x-coordinate `Gx`. -/
def gX : Nat := 22963146547237050559479531362550074578802567295341616970375194840604139615431

/-- Modelled from the spec: base point y-coordinate `Gy`. -/
def gY : Nat := 85132369209828568825618990617112496413088388631904505083283536607588877201568

/-- Modelled from the spec: `Params().BitSize` of the 256-bit curve. -/
def bitSize : Nat := 256

/-- Modelled from the spec: an affine curve point — coordinates `(x, y)`
or the distinguished point at infinity (the group identity). -/
inductive Point where
  | inf : Point
  | aff (x y : Nat) : Point
deriving DecidableEq, Repr

/-- The x-coordinate as exposed through the Go `elliptic.Curve` API,
which represents the point at infinity with zero coordinates. -/
def Point.xCoord : Point → Nat
  | .inf => 0
  | .aff x _ => x

/-- Little-endian list of binary digits of `m` (most significant last),
with explicit fuel so that the definition is structural. -/
def natBits : Nat → Nat → List Bool
  | 0, _ => []
  | f + 1, m => if m = 0 then [] else (m % 2 = 1) :: natBits f (m / 2)

/-- Binary modular exponentiation over a little-endian bit list. -/
def powBits : List Bool → Nat → Nat → Nat
  | [], _, _ => 1
  | bit :: bs, x, m =>
    let r := powBits bs (x * x % m) m
    if bit then x * r % m else r

/-- `x ^ e % m` by square-and-multiply (fuel 512 covers all exponents
below `2 ^ 512`, in particular the 256-bit exponents used here). -/
def powMod (x e m : Nat) : Nat := powBits (natBits 512 e) (x % m) m

/-- Modelled from the spec: modular inverse by Fermat's little theorem,
`x ^ (m - 2) mod m` for prime modulus `m` (§4.1 names this as one of the
two sanctioned implementations). -/
def modInv (m x : Nat) : Nat := powMod x (m - 2) m

/-- Modelled from the spec: affine point doubling over `pMod` using the
tangent-slope formula, returning infinity on a vertical tangent. -/
def pointDouble : Point → Point
  | .inf => .inf
  | .aff x y =>
    if y = 0 then .inf
    else
      let l := (3 * x * x + aCoef) * modInv pMod (2 * y % pMod) % pMod
      let x3 := (l * l + 2 * (pMod - x % pMod)) % pMod
      let y3 := (l * (x + (pMod - x3)) + (pMod - y % pMod)) % pMod
      .aff x3 y3

/-- Modelled from the spec: affine point addition with the special cases
required by §4.2 — either argument at infinity, `P == Q` (delegates to
doubling) and `P == -Q` (returns infinity). -/
def pointAdd : Point → Point → Point
  | .inf, q => q
  | q, .inf => q
  | .aff x1 y1, .aff x2 y2 =>
    if x1 = x2 then
      if (y1 + y2) % pMod = 0 then .inf
      else pointDouble (.aff x1 y1)
    else
      let l := (y2 + (pMod - y1 % pMod)) * modInv pMod ((x2 + (pMod - x1 % pMod)) % pMod) % pMod
      let x3 := (l * l + (pMod - x1 % pMod) + (pMod - x2 % pMod)) % pMod
      let y3 := (l * (x1 + (pMod - x3)) + (pMod - y1 % pMod)) % pMod
      .aff x3 y3

/-- Double-and-add over a little-endian bit list. -/
def mulBits : List Bool → Point → Point
  | [], _ => .inf
  | bit :: bs, pt =>
    let r := mulBits bs (pointDouble pt)
    if bit then pointAdd pt r else r

/-- Modelled from the spec: `scalarMultiply(k, P)` by double-and-add;
`k = 0` yields infinity.  The Go API passes the scalar as the big-endian
`k.Bytes()`, whose integer value is `k` itself. -/
def scalarMult (k : Nat) (pt : Point) : Point := mulBits (natBits 512 k) pt

/-- Modelled from the spec: the base point `G`. -/
def basePoint : Point := .aff gX gY

/-- Modelled from the spec: `scalarMultiplyBase(k) = scalarMultiply(k, G)`
(the Go `ScalarBaseMult`). -/
def scalarBaseMult (k : Nat) : Point := scalarMult k basePoint

/-- `big.Int.SetBytes`: interpret a byte list as an unsigned big-endian
integer. -/
def fromBytesBE (l : List Nat) : Nat := l.foldl (fun acc bv => acc * 256 + bv) 0

/-- Minimal big-endian bytes of `m`, with fuel (structural recursion);
fuel 64 covers every value below `2 ^ 512`. -/
def natToBytesAux : Nat → Nat → List Nat
  | 0, _ => []
  | f + 1, m => if m = 0 then [] else natToBytesAux f (m / 256) ++ [m % 256]

/-- `big.Int.Bytes`: minimal big-endian byte encoding (empty for zero);
all values arising here are far below `2 ^ 512`, so fuel 64 is exact. -/
def natToBytes (m : Nat) : List Nat := natToBytesAux 64 m

/-- `io.ReadFull(rand, b)` for a buffer of `len` bytes over an entropy
stream modelled as the list of bytes it can still supply: the read fails
exactly when the stream cannot supply `len` bytes. -/
def readFull (stream : List Nat) (len : Nat) : Option (List Nat) :=
  if stream.length < len then none else some (stream.take len)

/-- `randFieldElement` from the sources: read `BitSize/8+8` bytes, reduce
mod `n - 1` and add one; the read error is propagated (`none`). -/
def randFieldElement (stream : List Nat) : Option Nat :=
  match readFull stream (bitSize / 8 + 8) with
  | none => none
  | some bs => some (fromBytesBE bs % (nOrd - 1) + 1)

/-- `generateRandK` from the sources: identical arithmetic, but on a read
error it returns with the named result `k` still nil (`none`) instead of
reporting the error. -/
def generateRandK (stream : List Nat) : Option Nat :=
  match readFull stream (bitSize / 8 + 8) with
  | none => none
  | some bs => some (fromBytesBE bs % (nOrd - 1) + 1)

/-- `GenerateKey` from the sources: draw `D` via `randFieldElement`
(propagating its error) and pair it with the public point `D·G`. -/
def GenerateKey (stream : List Nat) : Option (Nat × Point) :=
  match randFieldElement stream with
  | none => none
  | some k => some (k, scalarBaseMult k)

/-- Outcome of a Go `Sign` call: a signature pair, a returned error, or a
runtime panic (nil-pointer dereference). -/
inductive SignResult where
  | ok (r s : Nat) : SignResult
  | error (msg : String) : SignResult
  | panic : SignResult
deriving DecidableEq, Repr

/-- The digest-length error message returned by `Sign`. -/
def digestErrMsg : String := "The length of hash has short than what SM2 need."

/-- The `R` component of a successful signing outcome. -/
def SignResult.rPart : SignResult → Option Nat
  | .ok r _ => some r
  | _ => none

/-- The `S` component of a successful signing outcome. -/
def SignResult.sPart : SignResult → Option Nat
  | .ok _ s => some s
  | _ => none

/-- `Sign` from the sources.  Length check first; `e` from the first 32
digest bytes; nonce from `generateRandK` — when that returned nil, the
subsequent `k.Bytes()` dereferences a nil pointer (panic).  Then
`r = (e + x1) mod n`, `s1 = (k - r·D mod n) mod n` (Euclidean `big.Int.Mod`,
written here on naturals using `k < n`), `s2 = (1 + D) mod n`, and
`s = s1 · s2⁻¹ mod n`.  `big.Int.ModInverse` leaves its receiver unchanged
when the argument is not invertible — with `n` prime that happens exactly
for `s2 = 0`, in which case the receiver keeps the value `0` and
`s = s1 · 0 mod n`.  There is no retry branch anywhere: `r` and `s` are
returned as computed. -/
def Sign (stream : List Nat) (d : Nat) (hash : List Nat) : SignResult :=
  if hash.length < 32 then .error digestErrMsg
  else
    match generateRandK stream with
    | none => .panic
    | some k =>
      let e := fromBytesBE (hash.take 32)
      let x1 := (scalarBaseMult k).xCoord
      let r := (e + x1) % nOrd
      let s1 := (k + (nOrd - r * d % nOrd)) % nOrd
      let s2 := (1 + d) % nOrd
      let s2i := if s2 = 0 then s2 else modInv nOrd s2
      .ok r (s1 * s2i % nOrd)

/-- `Verify` from the sources.  Range checks on the `big.Int` inputs
(`Sign() <= 0`, `Cmp(N) >= 0`), then `e` from the whole digest,
`t = r + s` (not reduced mod `n`), the point `t·Q + s·G`, and the final
test `(e + x1) mod n == r`. -/
def Verify (pub : Point) (hash : List Nat) (r s : Int) : Bool :=
  if r ≤ 0 ∨ s ≤ 0 then false
  else if (nOrd : Int) ≤ r ∨ (nOrd : Int) ≤ s then false
  else
    let e := fromBytesBE hash
    let t := r.toNat + s.toNat
    let p1 := scalarMult t pub
    let p2 := scalarBaseMult s.toNat
    let pt := pointAdd p1 p2
    decide ((e + pt.xCoord) % nOrd = r.toNat)

/-- Contents octets of a DER INTEGER for a non-negative `big.Int`
(`encoding/asn1` marshalling): minimal big-endian bytes, a single zero
byte for zero, and a leading `0x00` when the top bit would be set. -/
def intBytes (m : Nat) : List Nat :=
  match natToBytes m with
  | [] => [0]
  | bv :: t => if 128 ≤ bv then 0 :: bv :: t else bv :: t

/-- DER length octets: short form below 128, long form otherwise. -/
def lenEncode (l : Nat) : List Nat :=
  if l < 128 then [l] else (128 + (natToBytes l).length) :: natToBytes l

/-- A DER INTEGER TLV for a non-negative value. -/
def intTLV (m : Nat) : List Nat := 2 :: lenEncode (intBytes m).length ++ intBytes m

/-- `asn1.Marshal(sm2Signature{r, s})` for non-negative components, as
used by `PrivateKey.Sign`: a SEQUENCE (tag `0x30`) of two INTEGERs. -/
def asn1MarshalSig (r s : Nat) : List Nat :=
  48 :: lenEncode (intTLV r ++ intTLV s).length ++ (intTLV r ++ intTLV s)

/-- The length-octet accumulation loop of Go's `parseTagAndLength`: each
iteration first rejects accumulators of `2 ^ 23` or more, then shifts in
the next byte. -/
def lenLoop : List Nat → Nat → Option Nat
  | [], acc => some acc
  | bv :: t, acc => if 2 ^ 23 ≤ acc then none else lenLoop t (acc * 256 + bv)

/-- DER length decoding as in Go's `parseTagAndLength`: short form below
128; long form reads the indicated count of bytes, rejecting the
indefinite form (count 0), truncated input, and non-minimal encodings of
values below 128. -/
def parseLen : List Nat → Option (Nat × List Nat)
  | [] => none
  | bv :: t =>
    if bv < 128 then some (bv, t)
    else
      let cnt := bv - 128
      if cnt = 0 then none
      else if t.length < cnt then none
      else
        match lenLoop (t.take cnt) 0 with
        | none => none
        | some lv => if lv < 128 then none else some (lv, t.drop cnt)

/-- Go's `checkInteger` plus `parseBigInt` on the contents octets of an
INTEGER: reject empty and non-minimal encodings, read the value as
big-endian two's complement. -/
def parseIntContents : List Nat → Option Int
  | [] => none
  | [bv] => some (if 128 ≤ bv then (bv : Int) - 256 else (bv : Int))
  | b1 :: b2 :: t =>
    if b1 = 0 ∧ b2 < 128 then none
    else if b1 = 255 ∧ 128 ≤ b2 then none
    else if 128 ≤ b1 then
      some ((fromBytesBE (b1 :: b2 :: t) : Int) - 2 ^ (8 * (t.length + 2)))
    else some (fromBytesBE (b1 :: b2 :: t))

/-- One INTEGER TLV: tag byte `0x02`, length octets, that many contents
octets; anything else is a structural error. -/
def parseIntTLV : List Nat → Option (Int × List Nat)
  | [] => none
  | tag :: t =>
    if tag = 2 then
      (parseLen t).bind fun lt =>
        if lt.2.length < lt.1 then none
        else (parseIntContents (lt.2.take lt.1)).bind fun v =>
          some (v, lt.2.drop lt.1)
    else none

/-- `asn1.Unmarshal(sign, &sm2Signature{...})`: a SEQUENCE (tag `0x30`)
whose contents begin with two INTEGER fields.  Bytes after the SEQUENCE
are returned as the unparsed rest (not an error), and Go's struct parsing
likewise allows extra bytes inside the SEQUENCE after the two fields. -/
def asn1UnmarshalSig : List Nat → Option (Int × Int × List Nat)
  | [] => none
  | tag :: t =>
    if tag = 48 then
      (parseLen t).bind fun lt =>
        if lt.2.length < lt.1 then none
        else (parseIntTLV (lt.2.take lt.1)).bind fun rc =>
          (parseIntTLV rc.2).bind fun sc =>
            some (rc.1, sc.1, lt.2.drop lt.1)
    else none

/-- `PublicKey.Verify` from the sources: decode the envelope (decoding
errors collapse to `false`, the unparsed rest is discarded) and delegate
to `Verify`. -/
def PublicKeyVerify (pub : Point) (msg : List Nat) (sig : List Nat) : Bool :=
  match asn1UnmarshalSig sig with
  | none => false
  | some (rv, sv, _) => Verify pub msg rv sv

/-- `PrivateKey.Sign` from the sources: sign, propagate a failure, and
marshal the resulting pair into the envelope. -/
def PrivateKeySign (stream : List Nat) (d : Nat) (msg : List Nat) : Option (List Nat) :=
  match Sign stream d msg with
  | .ok r s => some (asn1MarshalSig r s)
  | _ => none

/-! Concrete digests used by the counterexamples.  Each is the 32-byte
big-endian encoding of a value `e` chosen so that the signing or
verification equation hits a degenerate case for the private key `D = 1`
(whose key pair `GenerateKey` produces from an all-zero entropy stream,
since the 40 zero bytes reduce to the scalar `1`). -/

/-- 32-byte digest with value `(1 - Gx) mod n`: signing with `D = 1` and
nonce `k = 1` then yields `R = 1` and `S = 0`. -/
def digestS0 : List Nat :=
  [205, 59, 81, 210, 224, 230, 126, 230, 160, 102, 251, 185, 149, 198, 54, 106,
   226, 32, 211, 171, 47, 95, 249, 73, 226, 97, 174, 128, 6, 136, 204, 93]

/-- 32-byte digest with value `(0 - Gx) mod n`: signing with `D = 1` and
nonce `k = 1` then yields `R = 0`. -/
def digestR0 : List Nat :=
  [205, 59, 81, 210, 224, 230, 126, 230, 160, 102, 251, 185, 149, 198, 54, 106,
   226, 32, 211, 171, 47, 95, 249, 73, 226, 97, 174, 128, 6, 136, 204, 92]

/-- 32-byte digest with value `(n - 1 - Gx) mod n`: verification of the
pair `(R, S) = (n - 1, 1)` against the public key `G` then succeeds even
though `(R + S) mod n = 0`. -/
def digestT0 : List Nat :=
  [205, 59, 81, 210, 224, 230, 126, 230, 160, 102, 251, 185, 149, 198, 54, 106,
   226, 32, 211, 171, 47, 95, 249, 73, 226, 97, 174, 128, 6, 136, 204, 91]

/-- 32-byte digest with value `(1 - x(3·G)) mod n`: verification of the
pair `(R, S) = (1, 1)` against the public key `G` then succeeds. -/
def digestOK : List Nat :=
  [86, 128, 131, 42, 76, 54, 108, 75, 65, 210, 85, 115, 36, 190, 29, 178,
   208, 196, 115, 145, 220, 149, 226, 230, 113, 82, 219, 23, 105, 132, 162, 101]

/-- C1: the sign/verify round trip claimed by the spec fails on the code
because `Sign` lacks the retry loop: the key pair generated from an
all-zero entropy stream is `(D, Q) = (1, G)`; signing `digestS0` (32
bytes, zero-filled entropy supplying the requested 40 bytes) returns the
pair `(R, S) = (1, 0)`, and verifying that pair against the public key
returns `false`. -/
theorem c1_roundtrip_fails_without_retry :
    GenerateKey (List.replicate 40 0) = some (1, basePoint) ∧
    digestS0.length = 32 ∧
    Sign (List.replicate 40 0) 1 digestS0 = .ok 1 0 ∧
    Verify basePoint digestS0 1 0 = false := by
  decide

/-- C2: `Sign` has no retry branch, so it returns signatures with
components outside `[1, n-1]`: on `digestR0` it returns `R = 0`, and on
`digestS0` it returns `S = 0`, both with private key `D = 1` and an
all-zero entropy stream. -/
theorem c2_sign_returns_degenerate_components :
    (Sign (List.replicate 40 0) 1 digestR0).rPart = some 0 ∧
    (Sign (List.replicate 40 0) 1 digestS0).sPart = some 0 := by
  decide

/-- C3: when the entropy stream cannot supply the requested 40 bytes,
`generateRandK` swallows the read error and returns its nil named result,
and `Sign` dereferences that nil nonce (`k.Bytes()`) — a runtime panic,
not an error return; by contrast `GenerateKey` (via `randFieldElement`)
propagates the read failure as an error. -/
theorem c3_sign_panics_on_entropy_exhaustion :
    generateRandK (List.replicate 39 0) = none ∧
    Sign (List.replicate 39 0) 1 (List.replicate 32 0) = .panic ∧
    GenerateKey (List.replicate 39 0) = none := by
  decide

/-- C8 counterexample: a well-formed two-integer envelope for `(1, 1)`
followed by one trailing byte is decoded successfully (the trailing byte
comes back as the unparsed rest, which `PublicKey.Verify` discards), and
`PublicKey.Verify` even returns `true` for it on `digestOK` under the
public key `G` — the claim says any input with trailing data must fail to
decode and verify as `false`. -/
theorem c8_trailing_data_accepted :
    asn1UnmarshalSig [48, 6, 2, 1, 1, 2, 1, 1, 0] = some (1, 1, [0]) ∧
    PublicKeyVerify basePoint digestOK [48, 6, 2, 1, 1, 2, 1, 1, 0] = true := by
  decide

/-- C4: `Verify` computes `t = R + S` without reducing modulo `n` and
never rejects the case `(R + S) mod n = 0` (nor the identity point): for
the genuine public key `G = 1·G` and the in-range pair
`(R, S) = (n - 1, 1)` — whose sum is `0 mod n` — verification of
`digestT0` returns `true`, where the claim requires `false`. -/
theorem c4_verify_accepts_sum_zero :
    ((nOrd - 1) + 1) % nOrd = 0 ∧
    scalarBaseMult 1 = basePoint ∧
    Verify basePoint digestT0 ((nOrd : Int) - 1) 1 = true := by
  decide

/-- C5: `Verify` rejects any signature whose `R` or `S` component is
outside `[1, n-1]` — nonpositive values fail the `Sign() <= 0` check and
values of `n` or more fail the `Cmp(N) >= 0` check — regardless of the
public key and digest. -/
theorem c5_verify_rejects_out_of_range (pub : Point) (hash : List Nat) (r s : Int)
    (h : r ≤ 0 ∨ (nOrd : Int) ≤ r ∨ s ≤ 0 ∨ (nOrd : Int) ≤ s) :
    Verify pub hash r s = false := by
  unfold Verify
  split
  · rfl
  · split
    · rfl
    · rename_i h1 h2
      exact absurd h (by omega)

/-- Witness for C5 at the concrete out-of-range inputs named by the
claim: `R = 0`, `R = n`, `S = 0` and `S = n` are all rejected. -/
theorem c5_verify_rejects_out_of_range_witness :
    Verify basePoint digestOK 0 1 = false ∧
    Verify basePoint digestOK (nOrd : Int) 1 = false ∧
    Verify basePoint digestOK 1 0 = false ∧
    Verify basePoint digestOK 1 (nOrd : Int) = false :=
  ⟨c5_verify_rejects_out_of_range _ _ _ _ (Or.inl (by decide)),
   c5_verify_rejects_out_of_range _ _ _ _ (Or.inr (Or.inl (by decide))),
   c5_verify_rejects_out_of_range _ _ _ _ (Or.inr (Or.inr (Or.inl (by decide)))),
   c5_verify_rejects_out_of_range _ _ _ _ (Or.inr (Or.inr (Or.inr (by decide))))⟩

/-- C6: random scalar generation reads `bitlength(n)/8 + 8 = 40` bytes,
interprets them as an unsigned big-endian integer `b`, and both
`randFieldElement` and `generateRandK` return `(b mod (n-1)) + 1`, which
always lies in `[1, n-1]`, whenever the stream supplies the bytes. -/
theorem c6_rand_scalar_in_range (stream : List Nat) (h : 40 ≤ stream.length) :
    bitSize / 8 + 8 = 40 ∧
    randFieldElement stream =
      some (fromBytesBE (stream.take 40) % (nOrd - 1) + 1) ∧
    generateRandK stream = randFieldElement stream ∧
    1 ≤ fromBytesBE (stream.take 40) % (nOrd - 1) + 1 ∧
    fromBytesBE (stream.take 40) % (nOrd - 1) + 1 ≤ nOrd - 1 := by
  refine ⟨rfl, ?_, rfl, Nat.le_add_left 1 _, ?_⟩
  · have h40 : bitSize / 8 + 8 = 40 := rfl
    unfold randFieldElement readFull
    rw [h40, if_neg (by omega)]
  · have hpos : 0 < nOrd - 1 := by decide
    have := Nat.mod_lt (fromBytesBE (stream.take 40)) hpos
    omega

/-- Witness for C6 on a 40-byte all-zero stream: the scalar is `1`. -/
theorem c6_rand_scalar_in_range_witness :
    bitSize / 8 + 8 = 40 ∧
    randFieldElement (List.replicate 40 0) =
      some (fromBytesBE ((List.replicate 40 0).take 40) % (nOrd - 1) + 1) ∧
    generateRandK (List.replicate 40 0) = randFieldElement (List.replicate 40 0) ∧
    1 ≤ fromBytesBE ((List.replicate 40 0).take 40) % (nOrd - 1) + 1 ∧
    fromBytesBE ((List.replicate 40 0).take 40) % (nOrd - 1) + 1 ≤ nOrd - 1 :=
  c6_rand_scalar_in_range (List.replicate 40 0) (by decide)

/-- C7: a digest shorter than 32 bytes makes `Sign` return the
digest-length error — for every entropy stream, so before any entropy is
consumed — while for a digest of at least 32 bytes the length check
passes and `Sign` never returns that (or any) error. -/
theorem c7_digest_length_check (stream : List Nat) (d : Nat) (hash : List Nat) :
    (hash.length < 32 → Sign stream d hash = .error digestErrMsg) ∧
    (32 ≤ hash.length → ∀ msg, Sign stream d hash ≠ .error msg) := by
  constructor
  · intro h
    unfold Sign
    rw [if_pos h]
  · intro h msg
    unfold Sign
    split
    · omega
    · split
      · simp
      · simp

/-- Witness for C7: the empty digest is refused with the length error for
any key, and a 32-byte digest is not. -/
theorem c7_digest_length_check_witness :
    Sign [] 0 [] = .error digestErrMsg ∧
    Sign (List.replicate 40 0) 0 (List.replicate 32 0) ≠ .error digestErrMsg :=
  ⟨(c7_digest_length_check [] 0 []).1 (by decide),
   (c7_digest_length_check (List.replicate 40 0) 0 (List.replicate 32 0)).2
     (by decide) digestErrMsg⟩

/-- C8 amended: envelope decoding fails only when the input does not
begin with a well-formed two-integer sequence (trailing data is returned
as the unparsed rest instead of being rejected), and whenever decoding
does fail, `PublicKey.Verify` collapses the failure to `false`. -/
theorem c8_decode_failure_rejects (pub : Point) (msg sig : List Nat)
    (h : asn1UnmarshalSig sig = none) :
    PublicKeyVerify pub msg sig = false := by
  unfold PublicKeyVerify
  rw [h]

/-- Witness for the amended C8: the empty input fails to decode and
verification returns `false`. -/
theorem c8_decode_failure_rejects_witness :
    PublicKeyVerify basePoint digestOK [] = false :=
  c8_decode_failure_rejects basePoint digestOK [] (by decide)

/-- C9: with a fixed entropy stream, `Sign` reads the digest only through
its first 32 bytes (`hash[0:32]`), so two digests of length at least 32
agreeing on that prefix sign identically; `Verify` converts the whole
digest to the integer `E`, and indeed accepts `digestOK` but rejects its
extension by one zero byte — two digests agreeing on their first 32
bytes. -/
theorem c9_sign_truncates_verify_does_not (stream : List Nat) (d : Nat)
    (h1 h2 : List Nat) (hl1 : 32 ≤ h1.length) (hl2 : 32 ≤ h2.length)
    (hpre : h1.take 32 = h2.take 32) :
    Sign stream d h1 = Sign stream d h2 ∧
    Verify basePoint digestOK 1 1 = true ∧
    Verify basePoint (digestOK ++ [0]) 1 1 = false := by
  refine ⟨?_, by decide, by decide⟩
  unfold Sign
  rw [if_neg (by omega), if_neg (by omega), hpre]

/-- Witness for C9: `digestOK` and its one-byte extension agree on their
first 32 bytes, so they sign identically, while `Verify` distinguishes
them. -/
theorem c9_sign_truncates_verify_does_not_witness :
    Sign (List.replicate 40 0) 1 digestOK =
      Sign (List.replicate 40 0) 1 (digestOK ++ [0]) ∧
    Verify basePoint digestOK 1 1 = true ∧
    Verify basePoint (digestOK ++ [0]) 1 1 = false :=
  c9_sign_truncates_verify_does_not (List.replicate 40 0) 1 digestOK
    (digestOK ++ [0]) (by decide) (by decide) (by decide)

/-! Auxiliary facts about the byte encodings, used for the envelope
round trip. -/

theorem fromBytesBE_acc (l : List Nat) (acc : Nat) :
    l.foldl (fun a bv => a * 256 + bv) acc = acc * 256 ^ l.length + fromBytesBE l := by
  induction l generalizing acc with
  | nil => simp [fromBytesBE]
  | cons b t ih =>
    simp only [List.foldl_cons, List.length_cons, fromBytesBE]
    rw [ih (acc * 256 + b), ih (0 * 256 + b)]
    ring

theorem fromBytesBE_append (l1 l2 : List Nat) :
    fromBytesBE (l1 ++ l2) = fromBytesBE l1 * 256 ^ l2.length + fromBytesBE l2 := by
  unfold fromBytesBE
  rw [List.foldl_append]
  exact fromBytesBE_acc l2 _

theorem fromBytesBE_cons_zero (l : List Nat) :
    fromBytesBE (0 :: l) = fromBytesBE l := by
  simp [fromBytesBE]

theorem fromBytesBE_single (b : Nat) : fromBytesBE [b] = b := by
  simp [fromBytesBE]

theorem natToBytesAux_zero (f : Nat) : natToBytesAux f 0 = [] := by
  cases f <;> simp [natToBytesAux]

theorem natToBytesAux_val (f : Nat) : ∀ m, m < 256 ^ f →
    fromBytesBE (natToBytesAux f m) = m := by
  induction f with
  | zero =>
    intro m hm
    have : m = 0 := by simpa using hm
    subst this
    simp [natToBytesAux, fromBytesBE]
  | succ f ih =>
    intro m hm
    by_cases hm0 : m = 0
    · subst hm0
      simp [natToBytesAux, fromBytesBE]
    · rw [natToBytesAux, if_neg hm0, fromBytesBE_append, fromBytesBE_single]
      have hdiv : m / 256 < 256 ^ f := by
        have hp : (256 : Nat) ^ (f + 1) = 256 ^ f * 256 := pow_succ 256 f
        omega
      rw [ih (m / 256) hdiv]
      simp only [List.length_cons, List.length_nil]
      omega

theorem natToBytesAux_len (f : Nat) : ∀ m j, m < 256 ^ j →
    (natToBytesAux f m).length ≤ j := by
  induction f with
  | zero =>
    intro m j _
    simp [natToBytesAux]
  | succ f ih =>
    intro m j hm
    by_cases hm0 : m = 0
    · subst hm0
      simp [natToBytesAux]
    · cases j with
      | zero =>
        have : m = 0 := by simpa using hm
        omega
      | succ j =>
        rw [natToBytesAux, if_neg hm0]
        have hdiv : m / 256 < 256 ^ j := by
          have hp : (256 : Nat) ^ (j + 1) = 256 ^ j * 256 := pow_succ 256 j
          omega
        have := ih (m / 256) j hdiv
        simp only [List.length_append, List.length_cons, List.length_nil]
        omega

theorem natToBytesAux_head (f : Nat) : ∀ m, m ≠ 0 → m < 256 ^ f →
    ∃ b t, natToBytesAux f m = b :: t ∧ b ≠ 0 := by
  induction f with
  | zero =>
    intro m hm0 hm
    have : m = 0 := by simpa using hm
    omega
  | succ f ih =>
    intro m hm0 hm
    rw [natToBytesAux, if_neg hm0]
    by_cases hd : m / 256 = 0
    · rw [hd, natToBytesAux_zero]
      exact ⟨m % 256, [], rfl, by omega⟩
    · have hdiv : m / 256 < 256 ^ f := by
        have hp : (256 : Nat) ^ (f + 1) = 256 ^ f * 256 := pow_succ 256 f
        omega
      obtain ⟨b, t, heq, hb⟩ := ih (m / 256) hd hdiv
      exact ⟨b, t ++ [m % 256], by rw [heq, List.cons_append], hb⟩

theorem pow256_32 : (256 : Nat) ^ 32 = 2 ^ 256 := by norm_num

theorem pow256_64_big : (2 : Nat) ^ 256 < 256 ^ 64 := by norm_num

/-- For a positive value below `2 ^ 256`, the INTEGER contents octets
produced by the marshaller decode back to the value and occupy at most
33 bytes. -/
theorem intBytes_spec (m : Nat) (h1 : 1 ≤ m) (h2 : m < 2 ^ 256) :
    parseIntContents (intBytes m) = some (m : Int) ∧ (intBytes m).length ≤ 33 := by
  have hm0 : m ≠ 0 := by omega
  have hbig : m < 256 ^ 64 := lt_trans h2 pow256_64_big
  obtain ⟨b, t, heq, hb⟩ := natToBytesAux_head 64 m hm0 hbig
  have hval : fromBytesBE (b :: t) = m := by
    rw [← heq]
    exact natToBytesAux_val 64 m hbig
  have hlen : (b :: t).length ≤ 32 := by
    rw [← heq]
    exact natToBytesAux_len 64 m 32 (pow256_32 ▸ h2)
  have hnb : natToBytes m = b :: t := heq
  have hib : intBytes m = if 128 ≤ b then 0 :: b :: t else b :: t := by
    rw [intBytes, hnb]
  rw [hib]
  by_cases hbb : 128 ≤ b
  · rw [if_pos hbb]
    constructor
    · rw [parseIntContents]
      rw [if_neg (by omega), if_neg (by omega), if_neg (by omega)]
      rw [fromBytesBE_cons_zero, hval]
    · simp only [List.length_cons] at hlen ⊢
      omega
  · rw [if_neg hbb]
    constructor
    · cases t with
      | nil =>
        rw [fromBytesBE_single] at hval
        rw [parseIntContents, if_neg (by omega), hval]
      | cons b2 t2 =>
        rw [parseIntContents]
        rw [if_neg (by omega), if_neg (by omega), if_neg (by omega), hval]
    · simp only [List.length_cons] at hlen ⊢
      omega

/-- One INTEGER TLV for a positive value below `2 ^ 256` parses back to
the value, leaving exactly the appended bytes. -/
theorem parseIntTLV_intTLV (m : Nat) (h1 : 1 ≤ m) (h2 : m < 2 ^ 256)
    (rest : List Nat) :
    parseIntTLV (intTLV m ++ rest) = some ((m : Int), rest) := by
  obtain ⟨hparse, hlen⟩ := intBytes_spec m h1 h2
  have hlt : (intBytes m).length < 128 := by omega
  have hTLV : intTLV m ++ rest =
      2 :: (intBytes m).length :: (intBytes m ++ rest) := by
    rw [intTLV, lenEncode, if_pos hlt]
    simp
  rw [hTLV, parseIntTLV, if_pos rfl]
  have hplen : parseLen ((intBytes m).length :: (intBytes m ++ rest)) =
      some ((intBytes m).length, intBytes m ++ rest) := by
    rw [parseLen, if_pos hlt]
  rw [hplen, Option.some_bind]
  dsimp only
  rw [if_neg (by simp only [List.length_append]; omega)]
  rw [List.take_left, List.drop_left, hparse, Option.some_bind]

/-- The TLV of a value below `2 ^ 256` is at most 35 bytes long. -/
theorem intTLV_len (m : Nat) (h1 : 1 ≤ m) (h2 : m < 2 ^ 256) :
    (intTLV m).length ≤ 35 := by
  obtain ⟨_, hlen⟩ := intBytes_spec m h1 h2
  have hlenEnc : lenEncode (intBytes m).length = [(intBytes m).length] := by
    unfold lenEncode
    rw [if_pos (by omega)]
  unfold intTLV
  rw [hlenEnc]
  simp only [List.cons_append, List.length_cons, List.length_append,
    List.length_cons, List.length_nil]
  omega

theorem nOrd_lt_pow : nOrd < 2 ^ 256 := by decide

/-- C10: marshalling a signature pair with both components in `[1, n-1]`
(as every pair produced by `Sign` is bounded) through the envelope used
by `PrivateKey.Sign` and decoding it with the envelope parser used by
`PublicKey.Verify` recovers exactly the same pair, with no unparsed
rest. -/
theorem c10_envelope_roundtrip (r s : Nat)
    (hr1 : 1 ≤ r) (hr2 : r < nOrd) (hs1 : 1 ≤ s) (hs2 : s < nOrd) :
    asn1UnmarshalSig (asn1MarshalSig r s) = some ((r : Int), (s : Int), []) := by
  have hrb : r < 2 ^ 256 := lt_trans hr2 nOrd_lt_pow
  have hsb : s < 2 ^ 256 := lt_trans hs2 nOrd_lt_pow
  have hlr : (intTLV r).length ≤ 35 := intTLV_len r hr1 hrb
  have hls : (intTLV s).length ≤ 35 := intTLV_len s hs1 hsb
  have hbody : (intTLV r ++ intTLV s).length < 128 := by
    simp only [List.length_append]
    omega
  have hM : asn1MarshalSig r s =
      48 :: (intTLV r ++ intTLV s).length :: (intTLV r ++ intTLV s) := by
    rw [asn1MarshalSig, lenEncode, if_pos hbody]
    rfl
  rw [hM, asn1UnmarshalSig, if_pos rfl]
  have hplen : parseLen ((intTLV r ++ intTLV s).length ::
      (intTLV r ++ intTLV s)) =
      some ((intTLV r ++ intTLV s).length, intTLV r ++ intTLV s) := by
    rw [parseLen, if_pos hbody]
  rw [hplen, Option.some_bind]
  dsimp only
  rw [if_neg (by omega)]
  rw [List.take_length, List.drop_length]
  rw [parseIntTLV_intTLV r hr1 hrb (intTLV s), Option.some_bind]
  dsimp only
  have hs' := parseIntTLV_intTLV s hs1 hsb []
  rw [List.append_nil] at hs'
  rw [hs', Option.some_bind]

/-- Witness for C10 at the pair `(1, 1)`. -/
theorem c10_envelope_roundtrip_witness :
    asn1UnmarshalSig (asn1MarshalSig 1 1) = some ((1 : Int), (1 : Int), []) :=
  c10_envelope_roundtrip 1 1 (by decide) (by decide) (by decide) (by decide)

end SM2
